import Mathlib

/-!
Verification of `vfsgen` (generate.go): the build-time walk (`findFiles`,
`readDirPaths`), the emitter (`writeAssets`), and the generated runtime
virtual filesystem (`Open`, `Read`, `Seek`, `Readdir`, `Stat` on the
`dir` / `compressedFile` handle types), shallowly embedded in Lean.

Bytes are `Fin 256`.  gzip is modelled as an abstract lossless streaming
codec (a `Codec` with `compress` and `decompress`); theorems that need the
codec's losslessness take it as a hypothesis, mirroring the spec's "bulk
codec" abstraction.  `time.Time` is modelled by its year only, which is
exactly the data `MarshalText` can fail on (Go's `Time.MarshalText` errors
iff the year is outside [0,9999]).
-/

namespace Vfsgen

abbrev Byte := Fin 256

/-- Model of `time.Time`, reduced to the one field `MarshalText` inspects
for validity (the year). -/
structure TimeT where
  year : Int
deriving DecidableEq, Repr

/-- Model of `time.Time.MarshalText`: a textual round-trippable encoding
that fails exactly when the year is outside [0,9999]. -/
def TimeT.marshalText (t : TimeT) : Except String String :=
  if 0 ≤ t.year ∧ t.year ≤ 9999 then .ok (toString t.year)
  else .error "Time.MarshalText: year outside of range [0,9999]"

/-!
## Source filesystem model

The input `http.FileSystem` is modelled as a finite tree.  Each directory
either lists its children successfully or fails to list them (`listErr`),
matching the two failure points of the walk: `vfsutil.Walk` stats each
visited entry (a per-entry stat failure is the `statErr` marker on the
edge to that entry), and `readDirPaths` lists a directory's children
(a listing failure is `listErr`).
-/

mutual
inductive FSNode where
  | file (content : List Byte) (modTime : TimeT)
  | dir (modTime : TimeT) (listErr : Option String) (children : FSEntries)
inductive FSEntries where
  | nil
  | cons (name : String) (statErr : Option String) (node : FSNode) (rest : FSEntries)
end

/-- `pathpkg.Join(dirname, name)` for a clean directory path and a clean
single-component name. -/
def joinPath (dir name : String) : String :=
  if dir = "/" then "/" ++ name else dir ++ "/" ++ name

/-- The names returned by listing a directory (all children appear in the
listing; a child's `statErr` only makes the later per-entry stat fail). -/
def entryNames : FSEntries → List String
  | .nil => []
  | .cons name _ _ rest => name :: entryNames rest

/-- Lexicographic `≤` on character lists; on strings this is Go's
`<=` used by `sort.Strings` (UTF-8 byte order coincides with code-point
order). -/
def lexLe : List Char → List Char → Bool
  | [], _ => true
  | _ :: _, [] => false
  | a :: as, b :: bs =>
      if a < b then true
      else if a = b then lexLe as bs
      else false

def strLe (a b : String) : Bool := lexLe a.data b.data

/-- The relation `sort.Strings` sorts by. -/
def strLeRel (a b : String) : Prop := strLe a b = true

instance : DecidableRel strLeRel := fun a b =>
  inferInstanceAs (Decidable (strLe a b = true))

/-- Model of `sort.Strings`: for strings (a linear order) any correct sort
returns the unique sorted arrangement, here computed by insertion sort. -/
def sortStrings (l : List String) : List String :=
  l.insertionSort strLeRel

/-- Model of `readDirPaths` (generate.go:82-93): list the directory named
by `dirname`, join each child name onto `dirname` and return the sorted
list of joined paths; a listing failure is returned as the error. -/
def readDirPaths (dirname : String) (listErr : Option String) (children : FSEntries) :
    Except String (List String) :=
  match listErr with
  | some e => .error e
  | none => .ok (sortStrings ((entryNames children).map (joinPath dirname)))

/-!
## Build-time asset model

The build-time `dir` and `compressedFile` structs (defined in a sibling
file of the repository; their fields are fixed by every use in
generate.go:112-129 and 175-226): a directory asset holds its base name,
the sorted child paths and the mod time; a file asset holds its base name,
`fi.Size()` and the mod time (content is read later, by the emitter).
-/

inductive Asset where
  | dir (name : String) (entries : List String) (modTime : TimeT)
  | compressedFile (name : String) (uncompressedSize : Nat) (modTime : TimeT)
deriving DecidableEq, Repr

structure PathAsset where
  path : String
  asset : Asset
deriving DecidableEq, Repr

/-!
## The walk (`findFiles`, generate.go:98-141, driven by `vfsutil.Walk`)

`walkNode path name n` is the walk of the already-stat-ed node `n` at
`path` (whose base name is `name`; the asset name is `pathpkg.Base(path)`,
which for `path = join(parent, name)` is `name`, and for the root `/` is
`/`).  On a per-entry stat failure the walk function logs and returns nil,
so the entry is skipped and the walk continues (`walkEntries`' `some`
case); on a listing failure `readDirPaths` fails and the walk function
returns that error, aborting the whole walk.

On an error, `vfsutil.Walk` unwinds and `findFiles` returns the error (the
partially appended toc is discarded by `Translate`), so the model returns
the produced entries only on success.
-/

mutual
def walkNode (path name : String) : FSNode → Except String (List PathAsset)
  | .file content mt =>
      .ok [⟨path, .compressedFile name content.length mt⟩]
  | .dir mt le cs =>
      match readDirPaths path le cs with
      | .error e => .error e
      | .ok entries =>
          match walkEntries path cs with
          | .error e => .error e
          | .ok rest => .ok (⟨path, .dir name entries mt⟩ :: rest)
def walkEntries (dirPath : String) : FSEntries → Except String (List PathAsset)
  | .nil => .ok []
  | .cons _ (some _) _ rest =>
      -- per-entry stat failed: log.Printf("can't stat file ..."), return nil
      walkEntries dirPath rest
  | .cons name none child rest =>
      match walkNode (joinPath dirPath name) name child with
      | .error e => .error e
      | .ok as =>
          match walkEntries dirPath rest with
          | .error e => .error e
          | .ok bs => .ok (as ++ bs)
end

/-- `findFiles` (generate.go:98-141): walk the source filesystem from the
root `/`. -/
def findFiles (t : FSNode) : Except String (List PathAsset) :=
  walkNode "/" "/" t

mutual
/-- Reachability of a directory whose listing fails, skipping entries
whose stat fails (which the walk skips before ever listing them). -/
def hasListFail : FSNode → Bool
  | .file .. => false
  | .dir _ (some _) _ => true
  | .dir _ none cs => entriesHaveListFail cs
/-- See `hasListFail`. -/
def entriesHaveListFail : FSEntries → Bool
  | .nil => false
  | .cons _ (some _) _ rest => entriesHaveListFail rest
  | .cons _ none child rest => hasListFail child || entriesHaveListFail rest
end

def isOkE {ε α : Type} : Except ε α → Bool
  | .ok _ => true
  | .error _ => false

/-!
## Outcomes

Go distinguishes returning an `error` (recoverable) from panicking
(fatal).  `Outcome` makes both observable: `err` is an error return,
`fatal` is a panic.
-/

inductive Outcome (α : Type) where
  | ok (a : α)
  | err (msg : String)
  | fatal (msg : String)
deriving DecidableEq, Repr

def Outcome.isFatal {α : Type} : Outcome α → Bool
  | .fatal _ => true
  | _ => false

/-!
## Runtime model (the generated code, generate.go:238-337)

The generated `dir.entries` field holds `os.FileInfo` references to
sibling records of the same map.  Through the `os.FileInfo` interface only
the metadata (Name/Size/Mode/ModTime/IsDir) of a referenced record is
observable, so entries are modelled as the referenced records' metadata
views (`RFileInfo`).
-/

/-- The observable `os.FileInfo` view of a record: Name, Size, Mode,
ModTime, IsDir.  `mode` is the Go `os.FileMode` bit set as a `Nat`. -/
structure RFileInfo where
  name : String
  size : Nat
  mode : Nat
  modTime : TimeT
  isDir : Bool
deriving DecidableEq, Repr

/-- `os.ModeDir` is bit 31 of `os.FileMode`. -/
def modeDir : Nat := 2 ^ 31

/-- `compressedFile.Mode()` returns `0444` (generate.go:289). -/
def fileMode : Nat := 0o444

/-- `dir.Mode()` returns `0755 | os.ModeDir` (generate.go:333); the two
operands have disjoint bits, so `|` is `+`. -/
def dirMode : Nat := modeDir + 0o755

/-- The generated `dir` struct (generate.go:310-314). -/
structure RDir where
  name : String
  entries : List RFileInfo
  modTime : TimeT
deriving DecidableEq, Repr

/-- The generated `compressedFile` struct (generate.go:270-275). -/
structure RCompressedFile where
  name : String
  compressedContent : List Byte
  uncompressedSize : Nat
  modTime : TimeT
deriving DecidableEq, Repr

/-- A value of the generated `assetsFS` map: `*dir` or `*compressedFile`. -/
inductive RAsset where
  | dir (d : RDir)
  | compressedFile (f : RCompressedFile)
deriving DecidableEq, Repr

/-- The `os.FileInfo` methods of the two generated record types
(generate.go:287-292 and 331-336). -/
def RAsset.fileInfo : RAsset → RFileInfo
  | .dir d => ⟨d.name, 0, dirMode, d.modTime, true⟩
  | .compressedFile f => ⟨f.name, f.uncompressedSize, fileMode, f.modTime, false⟩

/-!
## The bulk codec and the string-literal escaping

gzip is modelled abstractly: `compress` is `gzip.NewWriter`+`Close` run
over the whole input within one generation run, `decompress` is
`gzip.NewReader`+a full read, returning `none` on malformed input.
Losslessness (`decompress (compress bs) = some bs`) is a hypothesis of
the round-trip theorems, never assumed by a definition.

Modelled from the spec: the repository's `StringWriter` (a sibling source
file, not part of generate.go) escapes each emitted byte so that control
characters and the escape/quote characters round-trip exactly through a
Go string literal; each byte is written as a `\xHH` escape.  `decodeLit`
is the target language's literal decoding (the inverse parse).
-/

structure Codec where
  compress : List Byte → List Byte
  decompress : List Byte → Option (List Byte)

def hexDigitChar (n : Nat) : Char :=
  if n < 10 then Char.ofNat (48 + n) else Char.ofNat (87 + n)

def escapeByte (b : Byte) : List Char :=
  ['\\', 'x', hexDigitChar (b.val / 16), hexDigitChar (b.val % 16)]

def escapeBytes : List Byte → List Char
  | [] => []
  | b :: rest => escapeByte b ++ escapeBytes rest

def unhexDigit (c : Char) : Option Nat :=
  if 48 ≤ c.toNat ∧ c.toNat ≤ 57 then some (c.toNat - 48)
  else if 97 ≤ c.toNat ∧ c.toNat ≤ 102 then some (c.toNat - 87)
  else none

def decodeLit : List Char → Option (List Byte)
  | [] => some []
  | '\\' :: 'x' :: h1 :: h2 :: rest => do
      let a ← unhexDigit h1
      let b ← unhexDigit h2
      let tail ← decodeLit rest
      pure (⟨(16 * a + b) % 256, Nat.mod_lt _ (by norm_num)⟩ :: tail)
  | _ => none

/-!
## The emitter (`writeAssets`, generate.go:149-235)

Pass 1 (generate.go:175-211) emits one record per toc entry, in toc
order: a `dir` record with its scalar fields (entries still nil), or a
`compressedFile` record whose `compressedContent` is the source file's
bytes run through the compressor.  The source's `f, _ := c.Input.Open(…)`
DISCARDS the open error (generate.go:196) and then uses `f` in
`io.Copy(gz, f)` and `f.Close()`: when `Open` failed, `f` is the nil
interface and the method call panics with a nil pointer dereference —
this is modelled by the `fatal` outcome.  `modTime.MarshalText` failures
are returned as errors (generate.go:183-186, 204-208).

Pass 2 (generate.go:218-227) re-emits every directory's `entries` as
references `assetsFS[entry].(os.FileInfo)` looked up in the same map; a
missing entry makes that type assertion panic on a nil interface.
-/

/-- Go map access `assetsFS[path]` (keys are unique filesystem paths). -/
def lookupFS : List (String × RAsset) → String → Option RAsset
  | [], _ => none
  | (k, a) :: rest, p => if k = p then some a else lookupFS rest p

def nilDerefMsg : String :=
  "runtime error: invalid memory address or nil pointer dereference"

def nilIfaceMsg : String :=
  "interface conversion: nil is not os.FileInfo"

def emitAsset (codec : Codec) (input : String → Except String (List Byte))
    (pa : PathAsset) : Outcome RAsset :=
  match pa.asset with
  | .dir name _ mt =>
      match mt.marshalText with
      | .error e => .err e
      | .ok _ => .ok (.dir ⟨name, [], mt⟩)
  | .compressedFile name size mt =>
      match input pa.path with
      | .error _ => .fatal nilDerefMsg
      | .ok content =>
          match mt.marshalText with
          | .error e => .err e
          | .ok _ => .ok (.compressedFile ⟨name, codec.compress content, size, mt⟩)

/-- Pass 1 of `writeAssets`: emit the records in toc order, stopping at
the first failing entry. -/
def emitRecords (codec : Codec) (input : String → Except String (List Byte)) :
    List PathAsset → Outcome (List (String × RAsset))
  | [] => .ok []
  | pa :: rest =>
      match emitAsset codec input pa with
      | .err e => .err e
      | .fatal m => .fatal m
      | .ok r =>
          match emitRecords codec input rest with
          | .err e => .err e
          | .fatal m => .fatal m
          | .ok fs => .ok ((pa.path, r) :: fs)

/-- Resolve a directory's child paths against the map:
`assetsFS[entry].(os.FileInfo)` — a missing entry is a nil interface and
the type assertion panics. -/
def resolveEntries (fs : List (String × RAsset)) : List String → Outcome (List RFileInfo)
  | [] => .ok []
  | p :: rest =>
      match lookupFS fs p with
      | none => .fatal nilIfaceMsg
      | some a =>
          match resolveEntries fs rest with
          | .ok es => .ok (a.fileInfo :: es)
          | .err e => .err e
          | .fatal m => .fatal m

/-- Overwrite the `entries` field of the `dir` record stored at `path`
(the only mutation of pass 2; file records are never touched). -/
def setDirEntries : List (String × RAsset) → String → List RFileInfo → List (String × RAsset)
  | [], _, _ => []
  | (k, RAsset.dir d) :: rest, path, es =>
      (if k = path then (k, RAsset.dir ⟨d.name, es, d.modTime⟩) else (k, RAsset.dir d)) ::
        setDirEntries rest path es
  | (k, RAsset.compressedFile f) :: rest, path, es =>
      (k, RAsset.compressedFile f) :: setDirEntries rest path es

/-- One pass-2 step: `assetsFS[path].(*dir).entries = []os.FileInfo{…}`.
The `.(*dir)` type assertion panics if the map has no `*dir` at `path`. -/
def wireOne (fs : List (String × RAsset)) (path : String) (childPaths : List String) :
    Outcome (List (String × RAsset)) :=
  match lookupFS fs path with
  | some (.dir _) =>
      match resolveEntries fs childPaths with
      | .ok es => .ok (setDirEntries fs path es)
      | .err e => .err e
      | .fatal m => .fatal m
  | _ => .fatal nilIfaceMsg

/-- Pass 2 of `writeAssets`: wire every directory's entries, in toc
order, against the (gradually updated) map. -/
def wireDirs (fs : List (String × RAsset)) : List PathAsset → Outcome (List (String × RAsset))
  | [] => .ok fs
  | pa :: rest =>
      match pa.asset with
      | .compressedFile .. => wireDirs fs rest
      | .dir _ entries _ =>
          match wireOne fs pa.path entries with
          | .err e => .err e
          | .fatal m => .fatal m
          | .ok fs' => wireDirs fs' rest

/-- `writeAssets` (generate.go:149-235), at the level of the static data
it emits: pass 1 then pass 2. -/
def generateFS (codec : Codec) (input : String → Except String (List Byte))
    (toc : List PathAsset) : Outcome (List (String × RAsset)) :=
  match emitRecords codec input toc with
  | .err e => .err e
  | .fatal m => .fatal m
  | .ok fs => wireDirs fs toc

/-!
## Runtime operations (the generated methods, generate.go:238-337)
-/

/-- An open handle: a `*dir` used directly as `http.File`, or a
`compressedFileInstance` holding the record and its live decompression
stream (modelled by the bytes the stream will still deliver). -/
inductive Handle where
  | dirH (d : RDir)
  | fileH (f : RCompressedFile) (stream : List Byte)
deriving DecidableEq, Repr

/-- `assetsFS.Open` (generate.go:239-258): look the path up in the map;
absent paths give `os.ErrNotExist`; a `*compressedFile` gets a fresh
gzip reader over its `compressedContent` (a reader error on the
self-produced bytes panics); a `*dir` is returned directly. -/
def openFS (codec : Codec) (fs : List (String × RAsset)) (path : String) : Outcome Handle :=
  match lookupFS fs path with
  | none => .err "file does not exist"
  | some (.compressedFile f) =>
      match codec.decompress f.compressedContent with
      | none => .fatal "unexpected error reading own gzip compressed bytes"
      | some bytes => .ok (.fileH f bytes)
  | some (.dir d) => .ok (.dirH d)

/-- `Read` (generate.go:299-301 and 316-318): a file instance reads
through its gzip stream; a directory returns the error
`cannot Read from directory <name>`. -/
def Handle.ReadBuf (h : Handle) (n : Nat) : Outcome (List Byte × Handle) :=
  match h with
  | .dirH d => .err ("cannot Read from directory " ++ d.name)
  | .fileH f stream => .ok (stream.take n, .fileH f (stream.drop n))

/-- Reading a file handle to EOF (the full pull through the stream). -/
def Handle.ReadAll : Handle → Outcome (List Byte)
  | .dirH d => .err ("cannot Read from directory " ++ d.name)
  | .fileH _ stream => .ok stream

/-- `Seek` (generate.go:302-304 and 319-321): a file instance panics
(`Seek not yet implemented`); a directory returns the error
`cannot Seek in directory <name>`. -/
def Handle.Seek (h : Handle) (offset whence : Int) : Outcome Int :=
  match h, offset, whence with
  | .dirH d, _, _ => .err ("cannot Seek in directory " ++ d.name)
  | .fileH _ _, _, _ => .fatal "Seek not yet implemented"

/-- `Readdir` (generate.go:277-279 and 323-328): a file returns the error
`cannot Readdir from file <name>`; a directory panics on any nonzero
count (`log.Panicln`) and otherwise returns its full entries list. -/
def Handle.Readdir (h : Handle) (count : Int) : Outcome (List RFileInfo) :=
  match h with
  | .fileH f _ => .err ("cannot Readdir from file " ++ f.name)
  | .dirH d =>
      if count ≠ 0 then .fatal ("httpDir.Readdir count unsupported value: " ++ toString count)
      else .ok d.entries

/-- `Stat` (generate.go:280 and 329): both handle kinds return their own
record as the `os.FileInfo`, with nil error. -/
def Handle.Stat : Handle → Outcome RFileInfo
  | .dirH d => .ok (RAsset.fileInfo (.dir d))
  | .fileH f _ => .ok (RAsset.fileInfo (.compressedFile f))

/-- `Close` (generate.go:305-307 and 322): a file instance closes its
gzip reader (which succeeds on an intact stream); a directory is a
no-op. -/
def Handle.Close : Handle → Outcome Unit
  | .dirH _ => .ok ()
  | .fileH _ _ => .ok ()

/-!
## The whole pipeline (`Translate`, generate.go:20-78)

`Translate` validates the configuration, walks the input, creates the
output file and writes the assets and the fixed runtime code.  The
output-file plumbing and the fixed program text around the static data
carry no claim-relevant state; the pipeline is modelled by its semantic
content: the walk feeding the emitter, reading file contents back from
the same source tree.
-/

/-- Split a character list at every separator occurrence. -/
def splitChars (sep : Char) : List Char → List (List Char)
  | [] => [[]]
  | c :: rest =>
      if c = sep then [] :: splitChars sep rest
      else
        match splitChars sep rest with
        | [] => [[c]]
        | g :: gs => (c :: g) :: gs

/-- The non-empty slash-separated components of a path. -/
def splitPath (p : String) : List String :=
  ((splitChars '/' p.data).map (fun cs => String.mk cs)).filter (fun s => s ≠ "")

def findChild : FSEntries → String → Option FSNode
  | .nil, _ => none
  | .cons nm _ c rest, k => if nm = k then some c else findChild rest k

def treeGet : FSNode → List String → Option FSNode
  | n, [] => some n
  | .dir _ _ cs, k :: rest =>
      match findChild cs k with
      | some c => treeGet c rest
      | none => none
  | .file .., _ :: _ => none

/-- Opening a path of the source tree for reading (the `c.Input.Open`
the emitter performs). -/
def treeOpen (t : FSNode) (p : String) : Except String (List Byte) :=
  match treeGet t (splitPath p) with
  | some (.file content _) => .ok content
  | _ => .error "file does not exist"

/-- `Translate` over a source tree: walk, then emit, opening contents
from the same tree. -/
def translate (codec : Codec) (t : FSNode) : Outcome (List (String × RAsset)) :=
  match findFiles t with
  | .error e => .err e
  | .ok toc => generateFS codec (treeOpen t) toc

/-- Every directory asset of the toc carries a lexically sorted child
path list. -/
def tocSorted (toc : List PathAsset) : Prop :=
  ∀ pa ∈ toc, ∀ nm es mt, pa.asset = Asset.dir nm es mt → es.Sorted (· ≤ ·)

/-!
## Concrete fixtures

The spec's own scenario: source tree `/a.txt: "hello"`, `/sub/b.txt:
"world"`.  `idCodec` is a (trivially lossless) instance of the bulk
codec used to instantiate codec-parametric theorems.
-/

def t0 : TimeT := ⟨2024⟩

def helloBytes : List Byte := [104, 101, 108, 108, 111]

def worldBytes : List Byte := [119, 111, 114, 108, 100]

def tree0 : FSNode :=
  .dir t0 none (.cons "a.txt" none (.file helloBytes t0)
    (.cons "sub" none (.dir t0 none (.cons "b.txt" none (.file worldBytes t0) .nil)) .nil))

def idCodec : Codec := ⟨fun bs => bs, fun bs => some bs⟩

def toc0 : List PathAsset :=
  [⟨"/", .dir "/" ["/a.txt", "/sub"] t0⟩,
   ⟨"/a.txt", .compressedFile "a.txt" 5 t0⟩,
   ⟨"/sub", .dir "sub" ["/sub/b.txt"] t0⟩,
   ⟨"/sub/b.txt", .compressedFile "b.txt" 5 t0⟩]

def fs0 : List (String × RAsset) :=
  [("/", .dir ⟨"/", [⟨"a.txt", 5, fileMode, t0, false⟩, ⟨"sub", 0, dirMode, t0, true⟩], t0⟩),
   ("/a.txt", .compressedFile ⟨"a.txt", helloBytes, 5, t0⟩),
   ("/sub", .dir ⟨"sub", [⟨"b.txt", 5, fileMode, t0, false⟩], t0⟩),
   ("/sub/b.txt", .compressedFile ⟨"b.txt", worldBytes, 5, t0⟩)]

/-- A toc whose file cannot be opened at emission time (the source file
disappeared or lost read permission between the walk and the emission). -/
def tocC7 : List PathAsset :=
  [⟨"/", .dir "/" ["/a.txt"] t0⟩, ⟨"/a.txt", .compressedFile "a.txt" 5 t0⟩]

def inputC7 : String → Except String (List Byte) :=
  fun _ => .error "open /a.txt: permission denied"

/-!
## Lemmas
-/

theorem lexLe_iff_not_lex : ∀ l m : List Char, lexLe l m = true ↔ ¬ List.Lex (· < ·) m l
  | [], [] => by simp [lexLe]
  | [], _ :: _ => by simp [lexLe]
  | a :: as, [] => by
      simp only [lexLe, Bool.false_eq_true, false_iff, not_not]
      exact .nil
  | a :: as, b :: bs => by
      simp only [lexLe]
      rcases lt_trichotomy a b with h | h | h
      · simp only [h, if_pos, true_iff]
        intro hl
        cases hl with
        | cons hl' => exact absurd h (lt_irrefl _)
        | rel h' => exact absurd h' (lt_asymm h)
      · subst h
        simp only [lt_irrefl, if_neg, if_pos, not_false_eq_true, ite_true, ite_false]
        rw [lexLe_iff_not_lex as bs]
        exact (not_congr (List.Lex.cons_iff (r := (· < ·)))).symm
      · have h1 : ¬ a < b := lt_asymm h
        have h2 : a ≠ b := ne_of_gt h
        simp only [h1, h2, if_neg, ite_false, Bool.false_eq_true, false_iff, not_not]
        exact .rel h
termination_by l _ => l.length

theorem strLe_iff_le (a b : String) : strLeRel a b ↔ a ≤ b := by
  have h1 : b < a ↔ List.Lex (· < ·) b.toList a.toList := String.lt_iff_toList_lt
  rw [strLeRel, strLe, lexLe_iff_not_lex, ← not_lt]
  exact not_congr h1.symm

theorem sortStrings_sorted (l : List String) : (sortStrings l).Sorted (· ≤ ·) := by
  haveI : IsTotal String strLeRel :=
    ⟨fun a b => by rw [strLe_iff_le, strLe_iff_le]; exact le_total a b⟩
  haveI : IsTrans String strLeRel :=
    ⟨fun a b c h1 h2 => by
      rw [strLe_iff_le] at h1 h2 ⊢
      exact le_trans h1 h2⟩
  exact (List.sorted_insertionSort strLeRel l).imp fun h => (strLe_iff_le _ _).mp h

/-- The pipeline on the spec's scenario tree produces exactly `fs0`. -/
theorem translate_tree0 : translate idCodec tree0 = .ok fs0 := rfl

theorem unhex_hexDigit : ∀ n : Nat, n < 16 → unhexDigit (hexDigitChar n) = some n := by
  decide

/-- The `\xHH` escaping used for the emitted byte-string literal decodes
back to exactly the escaped bytes. -/
theorem decodeLit_escapeBytes : ∀ bs : List Byte, decodeLit (escapeBytes bs) = some bs
  | [] => rfl
  | b :: rest => by
      have hb := b.isLt
      have hd : b.val / 16 < 16 := Nat.div_lt_of_lt_mul hb
      have hm : b.val % 16 < 16 := Nat.mod_lt _ (by norm_num)
      have h1 := unhex_hexDigit _ hd
      have h2 := unhex_hexDigit _ hm
      have ih := decodeLit_escapeBytes rest
      simp only [escapeBytes, escapeByte, List.cons_append, List.nil_append, List.append_eq,
        decodeLit, h1, h2, ih, Option.bind_eq_bind, Option.some_bind, Option.pure_def,
        Option.some.injEq, List.cons.injEq, and_true]
      rw [Fin.ext_iff]
      simp only [Fin.val_mk]
      omega

theorem emitRecords_lookup (codec : Codec) (input : String → Except String (List Byte)) :
    ∀ (toc : List PathAsset) (fs : List (String × RAsset)) (path : String) (a : Asset),
      emitRecords codec input toc = .ok fs →
      (⟨path, a⟩ : PathAsset) ∈ toc →
      (toc.map PathAsset.path).Nodup →
      ∃ r, emitAsset codec input ⟨path, a⟩ = .ok r ∧ lookupFS fs path = some r := by
  intro toc
  induction toc with
  | nil => intro fs path a h hmem hnd; exact absurd hmem (List.not_mem_nil _)
  | cons pa rest ih =>
      intro fs path a h hmem hnd
      simp only [emitRecords] at h
      cases h1 : emitAsset codec input pa with
      | err e => rw [h1] at h; simp at h
      | fatal m => rw [h1] at h; simp at h
      | ok r =>
          rw [h1] at h
          cases h2 : emitRecords codec input rest with
          | err e => rw [h2] at h; simp at h
          | fatal m => rw [h2] at h; simp at h
          | ok fs' =>
              rw [h2] at h
              simp only [Outcome.ok.injEq] at h
              subst h
              rcases List.mem_cons.mp hmem with heq | hmem'
              · refine ⟨r, heq ▸ h1, ?_⟩
                rw [← heq]
                simp [lookupFS]
              · have hne : pa.path ≠ path := by
                  simp only [List.map_cons, List.nodup_cons] at hnd
                  intro hcontra
                  exact hnd.1 (hcontra ▸ List.mem_map.mpr ⟨⟨path, a⟩, hmem', rfl⟩)
                obtain ⟨r', hr1, hr2⟩ := ih fs' path a h2 hmem'
                  (by simp only [List.map_cons, List.nodup_cons] at hnd; exact hnd.2)
                exact ⟨r', hr1, by rw [lookupFS, if_neg hne]; exact hr2⟩

theorem lookupFS_setDirEntries_file :
    ∀ (fs : List (String × RAsset)) (q : String) (es : List RFileInfo)
      (path : String) (f : RCompressedFile),
      lookupFS fs path = some (.compressedFile f) →
      lookupFS (setDirEntries fs q es) path = some (.compressedFile f)
  | [], q, es, path, f, h => by simp [lookupFS] at h
  | (k, RAsset.dir d) :: rest, q, es, path, f, h => by
      by_cases hk : k = path
      · rw [lookupFS, if_pos hk] at h
        simp at h
      · rw [lookupFS, if_neg hk] at h
        have ih := lookupFS_setDirEntries_file rest q es path f h
        rw [setDirEntries]
        by_cases hq : k = q
        · rw [if_pos hq, lookupFS, if_neg hk]; exact ih
        · rw [if_neg hq, lookupFS, if_neg hk]; exact ih
  | (k, RAsset.compressedFile f2) :: rest, q, es, path, f, h => by
      rw [setDirEntries]
      by_cases hk : k = path
      · rw [lookupFS, if_pos hk] at h
        rw [lookupFS, if_pos hk]
        exact h
      · rw [lookupFS, if_neg hk] at h
        rw [lookupFS, if_neg hk]
        exact lookupFS_setDirEntries_file rest q es path f h

theorem wireDirs_lookupFS_file :
    ∀ (toc : List PathAsset) (fs fs' : List (String × RAsset))
      (path : String) (f : RCompressedFile),
      wireDirs fs toc = .ok fs' →
      lookupFS fs path = some (.compressedFile f) →
      lookupFS fs' path = some (.compressedFile f)
  | [], fs, fs', path, f, h, hl => by
      simp only [wireDirs, Outcome.ok.injEq] at h
      subst h
      exact hl
  | pa :: rest, fs, fs', path, f, h, hl => by
      rcases pa with ⟨ppath, passet⟩
      cases passet with
      | compressedFile nm sz mt =>
          simp only [wireDirs] at h
          exact wireDirs_lookupFS_file rest fs fs' path f h hl
      | dir nm entries mt =>
          simp only [wireDirs] at h
          cases hw : wireOne fs ppath entries with
          | err e => rw [hw] at h; simp at h
          | fatal m => rw [hw] at h; simp at h
          | ok fs1 =>
              rw [hw] at h
              have hfs1 : lookupFS fs1 path = some (.compressedFile f) := by
                simp only [wireOne] at hw
                cases hl2 : lookupFS fs ppath with
                | none => rw [hl2] at hw; simp at hw
                | some a =>
                    rw [hl2] at hw
                    cases a with
                    | compressedFile f2 => simp at hw
                    | dir d2 =>
                        cases hr : resolveEntries fs entries with
                        | err e => rw [hr] at hw; simp at hw
                        | fatal m => rw [hr] at hw; simp at hw
                        | ok es2 =>
                            rw [hr] at hw
                            simp only [Outcome.ok.injEq] at hw
                            subst hw
                            exact lookupFS_setDirEntries_file fs ppath es2 path f hl
              exact wireDirs_lookupFS_file rest fs1 fs' path f h hfs1

mutual
theorem walkNode_isOk (p n : String) :
    (t : FSNode) → isOkE (walkNode p n t) = !hasListFail t
  | .file c mt => by simp [walkNode, hasListFail, isOkE]
  | .dir mt (some e) cs => by simp [walkNode, readDirPaths, hasListFail, isOkE]
  | .dir mt none cs => by
      have ih := walkEntries_isOk p cs
      cases h : walkEntries p cs with
      | error e => rw [h] at ih; simp [walkNode, readDirPaths, h, hasListFail, isOkE] at ih ⊢
                   exact ih
      | ok as => rw [h] at ih; simp [walkNode, readDirPaths, h, hasListFail, isOkE] at ih ⊢
                 exact ih
theorem walkEntries_isOk (d : String) :
    (es : FSEntries) → isOkE (walkEntries d es) = !entriesHaveListFail es
  | .nil => by simp [walkEntries, entriesHaveListFail, isOkE]
  | .cons nm (some e) c rest => by
      have ih := walkEntries_isOk d rest
      simpa [walkEntries, entriesHaveListFail] using ih
  | .cons nm none c rest => by
      have ih1 := walkNode_isOk (joinPath d nm) nm c
      have ih2 := walkEntries_isOk d rest
      cases h1 : walkNode (joinPath d nm) nm c with
      | error e =>
          rw [h1] at ih1
          simp [walkEntries, h1, entriesHaveListFail, isOkE] at ih1 ⊢
          simp [ih1]
      | ok as =>
          rw [h1] at ih1
          cases h2 : walkEntries d rest with
          | error e =>
              rw [h2] at ih2
              simp [walkEntries, h1, h2, entriesHaveListFail, isOkE] at ih1 ih2 ⊢
              exact fun _ => ih2
          | ok bs =>
              rw [h2] at ih2
              simp [walkEntries, h1, h2, entriesHaveListFail, isOkE] at ih1 ih2 ⊢
              exact ⟨ih1, ih2⟩
end

theorem tocSorted_nil : tocSorted [] := by
  intro pa h
  simp at h

theorem tocSorted_append {t1 t2 : List PathAsset} (h1 : tocSorted t1) (h2 : tocSorted t2) :
    tocSorted (t1 ++ t2) := by
  intro pa hmem nm es mt hasset
  rcases List.mem_append.mp hmem with h | h
  · exact h1 pa h nm es mt hasset
  · exact h2 pa h nm es mt hasset

mutual
theorem walkNode_sorted (p n : String) :
    (t : FSNode) → ∀ toc, walkNode p n t = .ok toc → tocSorted toc
  | .file c mt, toc, h => by
      simp only [walkNode, Except.ok.injEq] at h
      subst h
      intro pa hmem nm es mt' hasset
      simp at hmem
      subst hmem
      simp at hasset
  | .dir mt (some e) cs, toc, h => by
      simp [walkNode, readDirPaths] at h
  | .dir mt none cs, toc, h => by
      cases h2 : walkEntries p cs with
      | error e => rw [walkNode, readDirPaths, h2] at h; exact absurd h (by simp)
      | ok rest =>
          have ih := walkEntries_sorted p cs rest h2
          rw [walkNode, readDirPaths, h2] at h
          simp only [Except.ok.injEq] at h
          subst h
          intro pa hmem nm es mt' hasset
          rcases List.mem_cons.mp hmem with h | h
          · subst h
            simp only [Asset.dir.injEq] at hasset
            exact hasset.2.1 ▸ sortStrings_sorted _
          · exact ih pa h nm es mt' hasset
theorem walkEntries_sorted (d : String) :
    (es : FSEntries) → ∀ toc, walkEntries d es = .ok toc → tocSorted toc
  | .nil, toc, h => by
      simp only [walkEntries, Except.ok.injEq] at h
      subst h
      exact tocSorted_nil
  | .cons nm (some e) c rest, toc, h =>
      walkEntries_sorted d rest toc h
  | .cons nm none c rest, toc, h => by
      cases h1 : walkNode (joinPath d nm) nm c with
      | error e => rw [walkEntries, h1] at h; exact absurd h (by simp)
      | ok as =>
          cases h2 : walkEntries d rest with
          | error e => rw [walkEntries, h1, h2] at h; exact absurd h (by simp)
          | ok bs =>
              rw [walkEntries, h1, h2] at h
              simp only [Except.ok.injEq] at h
              subst h
              exact tocSorted_append
                (walkNode_sorted (joinPath d nm) nm c as h1)
                (walkEntries_sorted d rest bs h2)
end

/-!
## Claims
-/

/-- C1: for every file of the source tree, the emitted
`compressedContent` is the bulk codec's compression of the file's bytes,
the string-literal escaping of those bytes decodes back to exactly them,
and opening the file's path on the runtime filesystem and reading to EOF
through the decompression stream yields exactly `uncompressedSize` bytes
equal to the original file bytes — given a lossless codec and a source
unchanged between the walk (which recorded the size) and the emission
(which read the content). -/
theorem claim_C1_roundtrip (codec : Codec)
    (hrt : ∀ bs, codec.decompress (codec.compress bs) = some bs)
    (t : FSNode) (toc : List PathAsset) (fs : List (String × RAsset))
    (path nm : String) (size : Nat) (mt : TimeT) (content : List Byte)
    (hwalk : findFiles t = .ok toc)
    (hnd : (toc.map PathAsset.path).Nodup)
    (hmem : (⟨path, .compressedFile nm size mt⟩ : PathAsset) ∈ toc)
    (hopen : treeOpen t path = .ok content)
    (hsize : size = content.length)
    (hgen : translate codec t = .ok fs) :
    ∃ f : RCompressedFile,
      lookupFS fs path = some (.compressedFile f) ∧
      f.compressedContent = codec.compress content ∧
      decodeLit (escapeBytes f.compressedContent) = some f.compressedContent ∧
      codec.decompress f.compressedContent = some content ∧
      openFS codec fs path = .ok (.fileH f content) ∧
      Handle.ReadAll (.fileH f content) = .ok content ∧
      content.length = f.uncompressedSize := by
  simp only [translate, hwalk, generateFS] at hgen
  cases h1 : emitRecords codec (treeOpen t) toc with
  | err e => rw [h1] at hgen; simp at hgen
  | fatal m => rw [h1] at hgen; simp at hgen
  | ok fs1 =>
      rw [h1] at hgen
      obtain ⟨r, hr1, hr2⟩ :=
        emitRecords_lookup codec (treeOpen t) toc fs1 path _ h1 hmem hnd
      simp only [emitAsset] at hr1
      rw [hopen] at hr1
      cases hmt : mt.marshalText with
      | error e => rw [hmt] at hr1; simp at hr1
      | ok s =>
          rw [hmt] at hr1
          simp only [Outcome.ok.injEq] at hr1
          subst hr1
          have hfs := wireDirs_lookupFS_file toc fs1 fs path _ hgen hr2
          refine ⟨⟨nm, codec.compress content, size, mt⟩, hfs, rfl,
            decodeLit_escapeBytes _, hrt content, ?_, rfl, hsize.symm⟩
          simp only [openFS, hfs, hrt content]

theorem claim_C1_witness :
    ∃ f : RCompressedFile,
      lookupFS fs0 "/sub/b.txt" = some (.compressedFile f) ∧
      f.compressedContent = idCodec.compress worldBytes ∧
      decodeLit (escapeBytes f.compressedContent) = some f.compressedContent ∧
      idCodec.decompress f.compressedContent = some worldBytes ∧
      openFS idCodec fs0 "/sub/b.txt" = .ok (.fileH f worldBytes) ∧
      Handle.ReadAll (.fileH f worldBytes) = .ok worldBytes ∧
      worldBytes.length = f.uncompressedSize :=
  claim_C1_roundtrip idCodec (fun _ => rfl) tree0 toc0 fs0 "/sub/b.txt" "b.txt" 5 t0 worldBytes
    rfl (by decide) (by simp [toc0]) rfl rfl rfl

/-- C2: for every path not present in the static mapping, the runtime
filesystem's `Open(path)` returns a NotFound error (`os.ErrNotExist`) to
the caller and never panics; for every present path it returns a handle
(directories directly; files once the fresh gzip reader over the
self-produced compressed bytes initializes, which the emitter's output
guarantees). -/
theorem claim_C2_open_contract (codec : Codec) (fs : List (String × RAsset)) (path : String) :
    (lookupFS fs path = none → openFS codec fs path = .err "file does not exist") ∧
    (∀ d, lookupFS fs path = some (.dir d) → openFS codec fs path = .ok (.dirH d)) ∧
    (∀ f bs, lookupFS fs path = some (.compressedFile f) →
      codec.decompress f.compressedContent = some bs →
      openFS codec fs path = .ok (.fileH f bs)) := by
  refine ⟨fun h => ?_, fun d h => ?_, fun f bs h hd => ?_⟩
  · simp [openFS, h]
  · simp [openFS, h]
  · simp [openFS, h, hd]

theorem claim_C2_witness :
    openFS idCodec fs0 "/does/not/exist" = .err "file does not exist" ∧
    openFS idCodec fs0 "/sub" = .ok (.dirH ⟨"sub", [⟨"b.txt", 5, fileMode, t0, false⟩], t0⟩) ∧
    openFS idCodec fs0 "/a.txt" = .ok (.fileH ⟨"a.txt", helloBytes, 5, t0⟩ helloBytes) :=
  ⟨(claim_C2_open_contract idCodec fs0 "/does/not/exist").1 rfl,
   (claim_C2_open_contract idCodec fs0 "/sub").2.1 _ rfl,
   (claim_C2_open_contract idCodec fs0 "/a.txt").2.2 _ _ rfl rfl⟩

/-- C3: `ReadDir(0)` on a directory handle returns the full pre-sorted
list of child records — the empty list, not an error, for a childless
directory — while any nonzero count panics (`log.Panicln`); the child
path list a directory asset carries is produced sorted by
`readDirPaths`. -/
theorem claim_C3_readdir_contract :
    (∀ d : RDir, Handle.Readdir (.dirH d) 0 = .ok d.entries) ∧
    (∀ (d : RDir) (count : Int), count ≠ 0 →
      Handle.Readdir (.dirH d) count =
        .fatal ("httpDir.Readdir count unsupported value: " ++ toString count)) ∧
    (∀ d : RDir, d.entries = [] → Handle.Readdir (.dirH d) 0 = .ok []) ∧
    (∀ (dirname : String) (le : Option String) (cs : FSEntries) (ps : List String),
      readDirPaths dirname le cs = .ok ps → ps.Sorted (· ≤ ·)) := by
    refine ⟨fun d => rfl, fun d count hc => ?_, fun d h => by simp [Handle.Readdir, h], ?_⟩
    · simp [Handle.Readdir, hc]
    · intro dirname le cs ps h
      cases le with
      | some e => simp [readDirPaths] at h
      | none =>
          simp only [readDirPaths, Except.ok.injEq] at h
          exact h ▸ sortStrings_sorted _

theorem claim_C3_witness :
    Handle.Readdir (.dirH ⟨"sub", [⟨"b.txt", 5, fileMode, t0, false⟩], t0⟩) 1 =
      .fatal "httpDir.Readdir count unsupported value: 1" ∧
    Handle.Readdir (.dirH ⟨"empty", [], t0⟩) 0 = .ok [] ∧
    List.Sorted (· ≤ ·) ["/a.txt", "/sub"] :=
  ⟨claim_C3_readdir_contract.2.1 _ 1 (by decide),
   claim_C3_readdir_contract.2.2.1 _ rfl,
   claim_C3_readdir_contract.2.2.2 "/" none
     (.cons "sub" none (.dir t0 none .nil) (.cons "a.txt" none (.file helloBytes t0) .nil))
     ["/a.txt", "/sub"] rfl⟩

/-- C5: during the build-time walk a per-entry stat failure is logged and
the entry skipped, the walk continuing exactly as if the entry were not
there (so the toc may be a subset of the true tree), while a
directory-listing failure aborts: the walk of an unlistable directory
returns exactly the listing error, and `findFiles` succeeds iff no
reachable directory fails to list. -/
theorem claim_C5_walk_failure_policy :
    (∀ (dirPath name e : String) (child : FSNode) (rest : FSEntries),
      walkEntries dirPath (.cons name (some e) child rest) = walkEntries dirPath rest) ∧
    (∀ (path name e : String) (mt : TimeT) (cs : FSEntries),
      walkNode path name (.dir mt (some e) cs) = .error e) ∧
    (∀ (e : String) (mt : TimeT) (cs : FSEntries),
      findFiles (.dir mt (some e) cs) = .error e) ∧
    (∀ t : FSNode, isOkE (findFiles t) = !hasListFail t) :=
  ⟨fun _ _ _ _ _ => rfl, fun _ _ _ _ _ => rfl, fun _ _ _ => rfl,
   fun t => walkNode_isOk "/" "/" t⟩

/-- C4: `Seek` on a file handle panics (`Seek not yet implemented`) for
every offset/whence pair, regardless of the file's record or stream
content. -/
theorem claim_C4_file_seek_fatal (f : RCompressedFile) (stream : List Byte) (offset whence : Int) :
    Handle.Seek (.fileH f stream) offset whence = .fatal "Seek not yet implemented" :=
  rfl

/-- C6: `Stat()` returns, for a directory handle, size 0 and the fixed
mode `0755 | os.ModeDir`, and for a file handle the uncompressed size
and the fixed write-permission-free mode `0444`; the `os.ModeDir` bit
(bit 31) is set exactly on the directory mode. -/
theorem claim_C6_stat_metadata (d : RDir) (f : RCompressedFile) (stream : List Byte) :
    Handle.Stat (.dirH d) = .ok ⟨d.name, 0, dirMode, d.modTime, true⟩ ∧
    Handle.Stat (.fileH f stream) = .ok ⟨f.name, f.uncompressedSize, fileMode, f.modTime, false⟩ ∧
    Nat.testBit dirMode 31 = true ∧
    Nat.testBit fileMode 31 = false ∧
    fileMode &&& 0o222 = 0 :=
  ⟨rfl, rfl, by decide, by decide, by decide⟩

/-- C7: the spec requires emission to fail with an error when a source
file in the toc cannot be opened for reading, but `writeAssets`
(generate.go:196) discards the `Open` error (`f, _ := c.Input.Open(…)`)
and passes the nil handle to `io.Copy`/`f.Close`, panicking with a nil
pointer dereference instead of returning the error. -/
theorem claim_C7_open_failure_panics :
    generateFS idCodec inputC7 tocC7 = .fatal nilDerefMsg :=
  rfl

/-- C8 counterexample: the claim says `Read` on a directory handle and
`ReadDir` on a file handle are treated as fatal usage errors (panics);
in the code both return ordinary recoverable errors
(generate.go:316-318 and 277-279), as this concrete evaluation shows. -/
theorem claim_C8_counterexample :
    (Handle.ReadBuf (.dirH ⟨"sub", [], t0⟩) 1).isFatal = false ∧
    Handle.ReadBuf (.dirH ⟨"sub", [], t0⟩) 1 = .err "cannot Read from directory sub" ∧
    (Handle.Readdir (.fileH ⟨"a.txt", helloBytes, 5, t0⟩ helloBytes) 0).isFatal = false ∧
    Handle.Readdir (.fileH ⟨"a.txt", helloBytes, 5, t0⟩ helloBytes) 0 =
      .err "cannot Readdir from file a.txt" :=
  ⟨rfl, rfl, rfl, rfl⟩

/-- C8 (amended): `Read` on a directory handle and `ReadDir` on a file
handle always fail, but as ordinary recoverable error returns
(`cannot Read from directory <name>` / `cannot Readdir from file
<name>`), not as panics. -/
theorem claim_C8_wrong_kind_errors (d : RDir) (f : RCompressedFile)
    (stream : List Byte) (n : Nat) (count : Int) :
    Handle.ReadBuf (.dirH d) n = .err ("cannot Read from directory " ++ d.name) ∧
    Handle.Readdir (.fileH f stream) count = .err ("cannot Readdir from file " ++ f.name) :=
  ⟨rfl, rfl⟩

/-- C9: regenerating from an unchanged source tree produces identical
generated output: the pipeline is a pure function of the tree snapshot
(names, contents, sizes, modification times — no ambient clock or
iteration-order input exists anywhere in it), the toc order is the
deterministic walk order, and every directory asset's child path list is
sorted lexically. -/
theorem claim_C9_deterministic (codec : Codec) :
    (∀ t t' : FSNode, t = t' → translate codec t = translate codec t') ∧
    (∀ (t : FSNode) (toc : List PathAsset), findFiles t = .ok toc → tocSorted toc) :=
  ⟨fun _ _ h => h ▸ rfl, fun t toc h => walkNode_sorted "/" "/" t toc h⟩

theorem claim_C9_witness :
    translate idCodec tree0 = translate idCodec tree0 ∧
    List.Sorted (· ≤ ·) ["/a.txt", "/sub"] :=
  ⟨(claim_C9_deterministic idCodec).1 tree0 tree0 rfl,
   (claim_C9_deterministic idCodec).2 tree0 toc0 rfl ⟨"/", .dir "/" ["/a.txt", "/sub"] t0⟩
     (by simp [toc0]) "/" ["/a.txt", "/sub"] t0 rfl⟩

/-- C10: `Seek` on a directory handle fails with the ordinary
recoverable error `cannot Seek in directory <name>` for every
offset/whence pair — unlike `Seek` on a file handle, which panics. -/
theorem claim_C10_dir_seek_recoverable (d : RDir) (f : RCompressedFile)
    (stream : List Byte) (offset whence : Int) :
    Handle.Seek (.dirH d) offset whence = .err ("cannot Seek in directory " ++ d.name) ∧
    (Handle.Seek (.dirH d) offset whence).isFatal = false ∧
    Handle.Seek (.fileH f stream) offset whence = .fatal "Seek not yet implemented" :=
  ⟨rfl, rfl, rfl⟩

end Vfsgen
